import Mathlib

/-!
Verification of the sized-integer-literal library (SizedIntLiterals.h).

The library is a compile-time parser for integer literal tokens: a list of
characters is turned into an unsigned 64-bit accumulator value
(`createValue`), which is then range-checked against one of nine fixed-width
target types (`checkValid_*`) by the literal operators (`op_u8` ... `op_z`).

All C++ arithmetic in the source is performed on `std::uint64_t`, i.e. on
naturals reduced modulo 2^64; the embedding uses `Nat` with explicit
`% u64Mod`.  A C++ compilation failure (a failing `static_assert`, or the
instantiation of the incomplete primary template `ParseIntegerValue<r>` with
an empty digit pack) is modelled as `none`.
-/

namespace SizedIntLiterals

/-- The modulus of C++ `std::uint64_t` arithmetic. -/
def u64Mod : Nat := 2 ^ 64

/-- Embeds `sqrOf` (SizedIntLiterals.h line 68): `value * value` in u64. -/
def sqrOf (value : Nat) : Nat := (value * value) % u64Mod

/-- Embeds `powerOf` (line 74): `value ^ n` computed by squaring, in u64
arithmetic: `n == 0 ? 1 : sqrOf(powerOf(value, n / 2)) * (n % 2 == 0 ? 1 : value)`. -/
def powerOf (value : Nat) (n : Nat) : Nat :=
  if h : n = 0 then 1
  else (sqrOf (powerOf value (n / 2)) * (if n % 2 = 0 then 1 else value)) % u64Mod
termination_by n
decreasing_by exact Nat.div_lt_self (Nat.pos_of_ne_zero h) (by decide)

/-- Embeds `digitToValue` (line 81).  C++ `char` comparisons and subtraction
happen in `int` and the result is converted to u64, so a character outside all
three ranges still yields the wrapped value of `c - 'A' + 10`. -/
def digitToValue (kDigit : Char) : Nat :=
  ((if '0'.toNat ≤ kDigit.toNat ∧ kDigit.toNat ≤ '9'.toNat then
        (kDigit.toNat : Int) - '0'.toNat
      else if 'a'.toNat ≤ kDigit.toNat ∧ kDigit.toNat ≤ 'f'.toNat then
        (kDigit.toNat : Int) - 'a'.toNat + 10
      else
        (kDigit.toNat : Int) - 'A'.toNat + 10) % (2 ^ 64 : Int)).toNat

/-- Embeds `ParseIntegerValue<kRadix, kDigits...>::parse()` (lines 90-108).
The one-digit specialization returns `digitToValue`; the multi-digit
specialization computes `digitToValue(d) * powerOf(radix, |rest|) + parse(rest)`
in u64 arithmetic.  `ParseIntegerValue<kRadix>` with an empty pack is the
incomplete primary template, so instantiating `parse()` there is a compile
error: modelled as `none`. -/
def parseIntegerValue (kRadix : Nat) : List Char → Option Nat
  | [] => none
  | [kDigit] => some (digitToValue kDigit)
  | kDigit :: kDigits =>
      (parseIntegerValue kRadix kDigits).map
        (fun rest => ((digitToValue kDigit * powerOf kRadix kDigits.length) % u64Mod + rest) % u64Mod)

/-- Embeds `ParseBaseUnknown` (lines 113-124).  C++ partial ordering picks the
most specialized matching template, which corresponds to trying the patterns
below in order: `0b`/`0B` binary, `0x`/`0X` hexadecimal, a bare leading `0`
octal, and everything else decimal. -/
def parseBaseUnknown : List Char → Option Nat
  | '0' :: 'b' :: kDigits => parseIntegerValue 2 kDigits
  | '0' :: 'B' :: kDigits => parseIntegerValue 2 kDigits
  | '0' :: 'x' :: kDigits => parseIntegerValue 16 kDigits
  | '0' :: 'X' :: kDigits => parseIntegerValue 16 kDigits
  | '0' :: kDigits => parseIntegerValue 8 kDigits
  | kDigits => parseIntegerValue 10 kDigits

/-- Embeds `createValue` (line 131): sequences of more than one character go
through base detection, a single character is handed to the base-10 parser. -/
def createValue (kDigits : List Char) : Option Nat :=
  if kDigits.length > 1 then parseBaseUnknown kDigits
  else parseIntegerValue 10 kDigits

/-- `std::numeric_limits<uint8_t>::max()`. -/
def uint8Max : Nat := 2 ^ 8 - 1

/-- `std::numeric_limits<uint16_t>::max()`. -/
def uint16Max : Nat := 2 ^ 16 - 1

/-- `std::numeric_limits<uint32_t>::max()`. -/
def uint32Max : Nat := 2 ^ 32 - 1

/-- `std::numeric_limits<uint64_t>::max()`. -/
def uint64Max : Nat := 2 ^ 64 - 1

/-- `std::numeric_limits<int8_t>::max()`. -/
def int8Max : Nat := 2 ^ 7 - 1

/-- `std::numeric_limits<int16_t>::max()`. -/
def int16Max : Nat := 2 ^ 15 - 1

/-- `std::numeric_limits<int32_t>::max()`. -/
def int32Max : Nat := 2 ^ 31 - 1

/-- `std::numeric_limits<int64_t>::max()`. -/
def int64Max : Nat := 2 ^ 63 - 1

/-- `std::numeric_limits<size_t>::max()` on the 64-bit platforms the header
targets (`size_t` is the pointer-sized unsigned type). -/
def sizeTMax : Nat := 2 ^ 64 - 1

/-- `std::numeric_limits<int8_t>::min()` (two's complement). -/
def int8MinInt : Int := -(2 ^ 7)

/-- `std::numeric_limits<int16_t>::min()` (two's complement). -/
def int16MinInt : Int := -(2 ^ 15)

/-- `std::numeric_limits<int32_t>::min()` (two's complement). -/
def int32MinInt : Int := -(2 ^ 31)

/-- `std::numeric_limits<int64_t>::min()` (two's complement). -/
def int64MinInt : Int := -(2 ^ 63)

/-- Embeds `checkValid_uint8_t` (macro at line 139, instantiated line 147):
`static_assert(kValue <= max)` then `static_cast` (the identity for in-range
values).  The failing assert is modelled as `none`. -/
def checkValid_uint8_t (kValue : Nat) : Option Nat :=
  if kValue ≤ uint8Max then some kValue else none

/-- Embeds `checkValid_uint16_t` (line 148). -/
def checkValid_uint16_t (kValue : Nat) : Option Nat :=
  if kValue ≤ uint16Max then some kValue else none

/-- Embeds `checkValid_uint32_t` (line 149). -/
def checkValid_uint32_t (kValue : Nat) : Option Nat :=
  if kValue ≤ uint32Max then some kValue else none

/-- Embeds `checkValid_uint64_t` (line 150). -/
def checkValid_uint64_t (kValue : Nat) : Option Nat :=
  if kValue ≤ uint64Max then some kValue else none

/-- Embeds `checkValid_int8_t` (line 151). -/
def checkValid_int8_t (kValue : Nat) : Option Nat :=
  if kValue ≤ int8Max then some kValue else none

/-- Embeds `checkValid_int16_t` (line 152). -/
def checkValid_int16_t (kValue : Nat) : Option Nat :=
  if kValue ≤ int16Max then some kValue else none

/-- Embeds `checkValid_int32_t` (line 153). -/
def checkValid_int32_t (kValue : Nat) : Option Nat :=
  if kValue ≤ int32Max then some kValue else none

/-- Embeds `checkValid_int64_t` (line 154). -/
def checkValid_int64_t (kValue : Nat) : Option Nat :=
  if kValue ≤ int64Max then some kValue else none

/-- Embeds `checkValid_size_t` (line 155). -/
def checkValid_size_t (kValue : Nat) : Option Nat :=
  if kValue ≤ sizeTMax then some kValue else none

/-- Embeds `operator"" _u8` (macro line 162, instantiated line 169):
`checkValid_uint8_t<createValue<digits...>()>()`. -/
def op_u8 (digits : List Char) : Option Nat :=
  (createValue digits).bind checkValid_uint8_t

/-- Embeds `operator"" _u16` (line 170). -/
def op_u16 (digits : List Char) : Option Nat :=
  (createValue digits).bind checkValid_uint16_t

/-- Embeds `operator"" _u32` (line 171). -/
def op_u32 (digits : List Char) : Option Nat :=
  (createValue digits).bind checkValid_uint32_t

/-- Embeds `operator"" _u64` (line 172). -/
def op_u64 (digits : List Char) : Option Nat :=
  (createValue digits).bind checkValid_uint64_t

/-- Embeds `operator"" _i8` (line 173). -/
def op_i8 (digits : List Char) : Option Nat :=
  (createValue digits).bind checkValid_int8_t

/-- Embeds `operator"" _i16` (line 174). -/
def op_i16 (digits : List Char) : Option Nat :=
  (createValue digits).bind checkValid_int16_t

/-- Embeds `operator"" _i32` (line 175). -/
def op_i32 (digits : List Char) : Option Nat :=
  (createValue digits).bind checkValid_int32_t

/-- Embeds `operator"" _i64` (line 176). -/
def op_i64 (digits : List Char) : Option Nat :=
  (createValue digits).bind checkValid_int64_t

/-- Embeds `operator"" _z` (line 177). -/
def op_z (digits : List Char) : Option Nat :=
  (createValue digits).bind checkValid_size_t

/-- The nine literal suffixes defined by the header. -/
inductive Suffix where
  | u8 | u16 | u32 | u64 | i8 | i16 | i32 | i64 | z

/-- The maximum representable value of the target type of each suffix. -/
def maxOf : Suffix → Nat
  | .u8 => uint8Max
  | .u16 => uint16Max
  | .u32 => uint32Max
  | .u64 => uint64Max
  | .i8 => int8Max
  | .i16 => int16Max
  | .i32 => int32Max
  | .i64 => int64Max
  | .z => sizeTMax

/-- The literal operator attached to each suffix. -/
def applyOp : Suffix → List Char → Option Nat
  | .u8 => op_u8
  | .u16 => op_u16
  | .u32 => op_u32
  | .u64 => op_u64
  | .i8 => op_i8
  | .i16 => op_i16
  | .i32 => op_i32
  | .i64 => op_i64
  | .z => op_z

/-- Specification-side value of one hexadecimal digit character, `none` for a
character that is not a hexadecimal digit. -/
def hexDigitVal (c : Char) : Option Nat :=
  if '0'.toNat ≤ c.toNat ∧ c.toNat ≤ '9'.toNat then some (c.toNat - '0'.toNat)
  else if 'a'.toNat ≤ c.toNat ∧ c.toNat ≤ 'f'.toNat then some (c.toNat - 'a'.toNat + 10)
  else if 'A'.toNat ≤ c.toNat ∧ c.toNat ≤ 'F'.toNat then some (c.toNat - 'A'.toNat + 10)
  else none

/-- Specification-side value of one digit character under radix `r`: defined
exactly when the character is a valid digit of that radix. -/
def digitVal (r : Nat) (c : Char) : Option Nat :=
  (hexDigitVal c).bind (fun d => if d < r then some d else none)

/-- Specification-side exact (unbounded) positional value of a non-empty digit
sequence under radix `r`; `none` if the sequence is empty or contains a
character that is not a valid digit of radix `r`. -/
def stdDigitsValue (r : Nat) : List Char → Option Nat
  | [] => none
  | [c] => digitVal r c
  | c :: cs =>
      match digitVal r c, stdDigitsValue r cs with
      | some d, some rest => some (d * r ^ cs.length + rest)
      | _, _ => none

/-- Specification-side value of "the equivalent standard-library literal": the
mathematical value, in unbounded arithmetic, that C++ assigns to a well-formed
integer-literal token (`0b`/`0B` binary prefix, `0x`/`0X` hexadecimal prefix,
leading `0` octal, otherwise decimal; the literal `0` itself has value 0);
`none` for a character sequence that is not a well-formed integer literal. -/
def stdLitValue : List Char → Option Nat
  | [] => none
  | [c] => digitVal 10 c
  | c1 :: c2 :: rest =>
      if c1 = '0' then
        if c2 = 'b' ∨ c2 = 'B' then stdDigitsValue 2 rest
        else if c2 = 'x' ∨ c2 = 'X' then stdDigitsValue 16 rest
        else stdDigitsValue 8 (c2 :: rest)
      else stdDigitsValue 10 (c1 :: c2 :: rest)

/-- The positional accumulation `Sum over i of digitToValue(d_i) * r^(n-1-i)`,
written as structural recursion, in unbounded arithmetic. -/
def positionalSum (r : Nat) : List Char → Nat
  | [] => 0
  | d :: ds => digitToValue d * r ^ ds.length + positionalSum r ds

/-- The naive definition of `v` raised to the `n`-th power by repeated
multiplication. -/
def naivePow (v : Nat) : Nat → Nat
  | 0 => 1
  | n + 1 => naivePow v n * v

theorem u64Mod_val : u64Mod = 18446744073709551616 := by norm_num [u64Mod]

theorem naivePow_eq_pow (v n : Nat) : naivePow v n = v ^ n := by
  induction n with
  | zero => rfl
  | succ n ih => rw [naivePow, ih, pow_succ]

theorem powerOf_eq_pow (value n : Nat) : powerOf value n = value ^ n % u64Mod := by
  induction n using Nat.strong_induction_on with
  | _ n ih =>
    rw [powerOf]
    by_cases h : n = 0
    · rw [dif_pos h, h, pow_zero, Nat.mod_eq_of_lt (by rw [u64Mod_val]; omega)]
    · rw [dif_neg h, ih (n / 2) (Nat.div_lt_self (Nat.pos_of_ne_zero h) (by decide))]
      unfold sqrOf
      rcases Nat.mod_two_eq_zero_or_one n with hp | hp
      · rw [hp, if_pos rfl, ← Nat.mul_mod, Nat.mod_mul_mod, Nat.mul_one, ← pow_add,
          show n / 2 + n / 2 = n from by omega]
      · rw [hp, if_neg (by decide), ← Nat.mul_mod, Nat.mod_mul_mod, ← pow_add, ← pow_succ,
          show n / 2 + n / 2 + 1 = n from by omega]

theorem digitToValue_lt (c : Char) : digitToValue c < u64Mod := by
  unfold digitToValue
  rw [u64Mod_val]
  have h2 : ((if '0'.toNat ≤ c.toNat ∧ c.toNat ≤ '9'.toNat then
        (c.toNat : Int) - '0'.toNat
      else if 'a'.toNat ≤ c.toNat ∧ c.toNat ≤ 'f'.toNat then
        (c.toNat : Int) - 'a'.toNat + 10
      else
        (c.toNat : Int) - 'A'.toNat + 10) % (2 ^ 64 : Int)) < 2 ^ 64 :=
    Int.emod_lt_of_pos _ (by norm_num)
  omega

theorem digitVal_eq (r : Nat) (c : Char) (d : Nat) (h : digitVal r c = some d) :
    digitToValue c = d ∧ d < r ∧ d ≤ 15 := by
  unfold digitVal hexDigitVal at h
  unfold digitToValue
  simp only [show ('0').toNat = 48 from by decide, show ('9').toNat = 57 from by decide,
    show ('a').toNat = 97 from by decide, show ('f').toNat = 102 from by decide,
    show ('A').toNat = 65 from by decide, show ('F').toNat = 70 from by decide] at h ⊢
  by_cases h1 : 48 ≤ c.toNat ∧ c.toNat ≤ 57
  · rw [if_pos h1] at h ⊢
    simp only [Option.bind] at h
    split_ifs at h with hr
    simp only [Option.some.injEq] at h
    omega
  · rw [if_neg h1] at h ⊢
    by_cases h2 : 97 ≤ c.toNat ∧ c.toNat ≤ 102
    · rw [if_pos h2] at h ⊢
      simp only [Option.bind] at h
      split_ifs at h with hr
      simp only [Option.some.injEq] at h
      omega
    · rw [if_neg h2] at h ⊢
      by_cases h3 : 65 ≤ c.toNat ∧ c.toNat ≤ 70
      · rw [if_pos h3] at h
        simp only [Option.bind] at h
        split_ifs at h with hr
        simp only [Option.some.injEq] at h
        omega
      · rw [if_neg h3] at h
        exact Option.noConfusion h

theorem u64Mod_pos : 0 < u64Mod := by rw [u64Mod_val]; omega

theorem parseIntegerValue_lt (r : Nat) (ds : List Char) (v : Nat)
    (h : parseIntegerValue r ds = some v) : v < u64Mod := by
  cases ds with
  | nil => exact Option.noConfusion h
  | cons c cs =>
    cases cs with
    | nil =>
      simp only [parseIntegerValue, Option.some.injEq] at h
      exact h ▸ digitToValue_lt c
    | cons c2 rest =>
      simp only [parseIntegerValue] at h
      rcases hw : parseIntegerValue r (c2 :: rest) with _ | w <;> rw [hw] at h
      · exact Option.noConfusion h
      · simp only [Option.map, Option.some.injEq] at h
        rw [← h]
        exact Nat.mod_lt _ u64Mod_pos

theorem parse_eq_sum (r : Nat) (ds : List Char) (h : ds ≠ []) :
    parseIntegerValue r ds = some (positionalSum r ds % u64Mod) := by
  induction ds with
  | nil => exact absurd rfl h
  | cons c cs ih =>
    cases cs with
    | nil =>
      simp only [parseIntegerValue, positionalSum, List.length_nil, pow_zero, Nat.mul_one,
        Nat.add_zero]
      rw [Nat.mod_eq_of_lt (digitToValue_lt c)]
    | cons c2 rest =>
      simp only [parseIntegerValue]
      rw [ih (by simp)]
      simp only [Option.map, Option.some.injEq, positionalSum]
      rw [powerOf_eq_pow, Nat.mul_mod_mod, Nat.mod_add_mod, Nat.add_mod_mod]

theorem stdDigitsValue_sum (r : Nat) (ds : List Char) (v : Nat)
    (h : stdDigitsValue r ds = some v) : positionalSum r ds = v ∧ ds ≠ [] := by
  induction ds generalizing v with
  | nil => exact Option.noConfusion h
  | cons c cs ih =>
    cases cs with
    | nil =>
      simp only [stdDigitsValue] at h
      obtain ⟨hdv, -, -⟩ := digitVal_eq r c v h
      simp [positionalSum, hdv]
    | cons c2 rest =>
      simp only [stdDigitsValue] at h
      rcases hd : digitVal r c with _ | d <;> rw [hd] at h
      · exact Option.noConfusion h
      · rcases hs : stdDigitsValue r (c2 :: rest) with _ | w <;> rw [hs] at h
        · exact Option.noConfusion h
        · simp only [Option.some.injEq] at h
          obtain ⟨hdv, -, -⟩ := digitVal_eq r c d hd
          obtain ⟨hw, -⟩ := ih w hs
          refine ⟨?_, by simp⟩
          rw [positionalSum, hdv, hw]
          exact h

theorem parse_of_std (r : Nat) (ds : List Char) (v : Nat) (h : stdDigitsValue r ds = some v) :
    parseIntegerValue r ds = some (v % u64Mod) := by
  obtain ⟨hsum, hne⟩ := stdDigitsValue_sum r ds v h
  rw [parse_eq_sum r ds hne, hsum]

theorem parseBaseUnknown_octal (c2 : Char) (rest : List Char)
    (hb : c2 ≠ 'b') (hB : c2 ≠ 'B') (hx : c2 ≠ 'x') (hX : c2 ≠ 'X') :
    parseBaseUnknown ('0' :: c2 :: rest) = parseIntegerValue 8 (c2 :: rest) := by
  unfold parseBaseUnknown
  split <;> simp_all

theorem parseBaseUnknown_decimal (c1 c2 : Char) (rest : List Char) (h0 : c1 ≠ '0') :
    parseBaseUnknown (c1 :: c2 :: rest) = parseIntegerValue 10 (c1 :: c2 :: rest) := by
  unfold parseBaseUnknown
  split <;> simp_all

theorem createValue_of_std (ds : List Char) (v : Nat) (h : stdLitValue ds = some v) :
    createValue ds = some (v % u64Mod) := by
  cases ds with
  | nil => exact Option.noConfusion h
  | cons c1 cs =>
    cases cs with
    | nil =>
      simp only [stdLitValue] at h
      obtain ⟨hdv, -, hle⟩ := digitVal_eq 10 c1 v h
      simp only [createValue, List.length_cons, List.length_nil]
      rw [if_neg (by omega)]
      simp only [parseIntegerValue, hdv, Option.some.injEq]
      rw [Nat.mod_eq_of_lt (by rw [u64Mod_val]; omega)]
    | cons c2 rest =>
      rw [createValue, if_pos (by simp)]
      simp only [stdLitValue] at h
      by_cases h0 : c1 = '0'
      · rw [if_pos h0] at h
        subst h0
        by_cases hb : c2 = 'b' ∨ c2 = 'B'
        · rw [if_pos hb] at h
          rcases hb with hb | hb <;> subst hb
          · rw [show parseBaseUnknown ('0' :: 'b' :: rest) = parseIntegerValue 2 rest from rfl]
            exact parse_of_std 2 rest v h
          · rw [show parseBaseUnknown ('0' :: 'B' :: rest) = parseIntegerValue 2 rest from rfl]
            exact parse_of_std 2 rest v h
        · rw [if_neg hb] at h
          by_cases hx : c2 = 'x' ∨ c2 = 'X'
          · rw [if_pos hx] at h
            rcases hx with hx | hx <;> subst hx
            · rw [show parseBaseUnknown ('0' :: 'x' :: rest) = parseIntegerValue 16 rest from rfl]
              exact parse_of_std 16 rest v h
            · rw [show parseBaseUnknown ('0' :: 'X' :: rest) = parseIntegerValue 16 rest from rfl]
              exact parse_of_std 16 rest v h
          · rw [if_neg hx] at h
            push_neg at hb hx
            rw [parseBaseUnknown_octal c2 rest hb.1 hb.2 hx.1 hx.2]
            exact parse_of_std 8 (c2 :: rest) v h
      · rw [if_neg h0] at h
        rw [parseBaseUnknown_decimal c1 c2 rest h0]
        exact parse_of_std 10 (c1 :: c2 :: rest) v h

theorem createValue_of_std_exact (ds : List Char) (v : Nat) (h : stdLitValue ds = some v)
    (hlt : v < u64Mod) : createValue ds = some v := by
  rw [createValue_of_std ds v h, Nat.mod_eq_of_lt hlt]

theorem createValue_lt (ds : List Char) (v : Nat) (h : createValue ds = some v) : v < u64Mod := by
  unfold createValue at h
  split at h
  · unfold parseBaseUnknown at h
    split at h <;> exact parseIntegerValue_lt _ _ _ h
  · exact parseIntegerValue_lt _ _ _ h

theorem maxOf_lt_u64Mod (s : Suffix) : maxOf s < u64Mod := by
  cases s <;> simp [maxOf, uint8Max, uint16Max, uint32Max, uint64Max, int8Max, int16Max,
    int32Max, int64Max, sizeTMax, u64Mod_val]

theorem applyOp_eq (s : Suffix) (ds : List Char) :
    applyOp s ds = (createValue ds).bind (fun v => if v ≤ maxOf s then some v else none) := by
  cases s <;> rfl

theorem applyOp_of_std (s : Suffix) (ds : List Char) (v : Nat) (h : stdLitValue ds = some v)
    (hle : v ≤ maxOf s) : applyOp s ds = some v := by
  rw [applyOp_eq,
    createValue_of_std_exact ds v h (lt_of_le_of_lt hle (maxOf_lt_u64Mod s))]
  simp [hle]

theorem applyOp_none_of_gt (s : Suffix) (ds : List Char) (v : Nat) (h : stdLitValue ds = some v)
    (hM : v < u64Mod) (hgt : maxOf s < v) : applyOp s ds = none := by
  rw [applyOp_eq, createValue_of_std_exact ds v h hM]
  simp only [Option.some_bind]
  rw [if_neg (by omega)]

theorem applyOp_none_iff (s : Suffix) (ds : List Char) (v : Nat) (h : stdLitValue ds = some v)
    (hM : v < u64Mod) : applyOp s ds = none ↔ maxOf s < v := by
  constructor
  · intro hn
    by_contra hgt
    push_neg at hgt
    rw [applyOp_of_std s ds v h hgt] at hn
    exact Option.noConfusion hn
  · exact applyOp_none_of_gt s ds v h hM

/-- C1: for every literal character sequence that is a well-formed
binary/octal/decimal/hexadecimal literal whose mathematical value `v` is
representable in the target type of the suffix, the literal operator returns
exactly `v` (the value of the equivalent standard-library literal), and the
result lies in the representable range of the requested fixed-width type. -/
theorem c1_literal_value_and_type (s : Suffix) (ds : List Char) (v : Nat)
    (h : stdLitValue ds = some v) (hle : v ≤ maxOf s) :
    applyOp s ds = some v ∧ v ≤ maxOf s :=
  ⟨applyOp_of_std s ds v h hle, hle⟩

/-- Witness for C1 at the decimal literal `100` with suffix `_u8`. -/
theorem c1_literal_value_and_type_witness :
    stdLitValue ['1', '0', '0'] = some 100 ∧ 100 ≤ maxOf Suffix.u8 ∧
      (applyOp Suffix.u8 ['1', '0', '0'] = some 100 ∧ 100 ≤ maxOf Suffix.u8) :=
  ⟨by decide, by decide,
    c1_literal_value_and_type Suffix.u8 ['1', '0', '0'] 100 (by decide) (by decide)⟩

/-- Counterexample to C2 as stated: the hexadecimal literal
`0x10000000000000000` has mathematical value 2^64, which exceeds the range of
`uint8_t`, yet `_u8` does not fail: the 64-bit accumulator wraps to 0 and the
range check passes. -/
theorem c2_counterexample :
    stdLitValue ['0', 'x', '1', '0', '0', '0', '0', '0', '0', '0', '0', '0', '0', '0', '0',
        '0', '0', '0', '0'] = some (2 ^ 64) ∧
      maxOf Suffix.u8 < 2 ^ 64 ∧
      applyOp Suffix.u8 ['0', 'x', '1', '0', '0', '0', '0', '0', '0', '0', '0', '0', '0', '0',
        '0', '0', '0', '0', '0'] ≠ none := by
  refine ⟨by decide, by decide, ?_⟩
  have h1 : createValue ['0', 'x', '1', '0', '0', '0', '0', '0', '0', '0', '0', '0', '0', '0',
      '0', '0', '0', '0', '0'] = some (2 ^ 64 % u64Mod) :=
    createValue_of_std _ (2 ^ 64) (by decide)
  have hmod : 2 ^ 64 % u64Mod = 0 := by rw [u64Mod]; exact Nat.mod_self _
  rw [hmod] at h1
  rw [applyOp_eq, h1]
  simp only [Option.some_bind]
  rw [if_pos (by decide)]
  simp

/-- C2 (amended): for every literal character sequence that is a well-formed
literal whose mathematical value is below 2^64 (so the 64-bit accumulator does
not wrap), using the literal with a suffix fails to compile (the unconditional
`static_assert` of the `checkValid` function) if and only if the value exceeds
the representable range of the requested fixed-width type; otherwise the
operator produces the value with no other failure mode. -/
theorem c2_amended_range_check_iff (s : Suffix) (ds : List Char) (v : Nat)
    (h : stdLitValue ds = some v) (hM : v < u64Mod) :
    applyOp s ds = none ↔ maxOf s < v :=
  applyOp_none_iff s ds v h hM

/-- Witness for C2 (amended) at the decimal literal `256` with suffix `_u8`. -/
theorem c2_amended_range_check_iff_witness :
    stdLitValue ['2', '5', '6'] = some 256 ∧ 256 < u64Mod ∧
      (applyOp Suffix.u8 ['2', '5', '6'] = none ↔ maxOf Suffix.u8 < 256) :=
  ⟨by decide, by decide,
    c2_amended_range_check_iff Suffix.u8 ['2', '5', '6'] 256 (by decide) (by decide)⟩

/-- Counterexample to C3 as stated: on the one-character sequence `0` the code
does not select octal with the `0` treated as a prefix (which would leave no
digits, i.e. the incomplete `ParseIntegerValue<8>`); `createValue` parses a
single character as one base-10 digit. -/
theorem c3_counterexample :
    createValue ['0'] = some 0 ∧ parseIntegerValue 8 ([] : List Char) = none ∧
      createValue ['0'] ≠ parseIntegerValue 8 ([] : List Char) := by decide

/-- C3 (amended): for sequences of two or more characters the base is
determined from the prefix exactly as claimed (`0b`/`0B` binary, `0x`/`0X`
hexadecimal, a bare leading `0` octal, otherwise decimal, the prefix characters
not being parsed as digits); a one-character sequence is instead always handed
to the base-10 parser as a single decimal digit (for the sequence `0` the
resulting value, 0, coincides with the octal reading). -/
theorem c3_amended_base_detection :
    (∀ rest : List Char, createValue ('0' :: 'b' :: rest) = parseIntegerValue 2 rest) ∧
    (∀ rest : List Char, createValue ('0' :: 'B' :: rest) = parseIntegerValue 2 rest) ∧
    (∀ rest : List Char, createValue ('0' :: 'x' :: rest) = parseIntegerValue 16 rest) ∧
    (∀ rest : List Char, createValue ('0' :: 'X' :: rest) = parseIntegerValue 16 rest) ∧
    (∀ (c2 : Char) (rest : List Char), c2 ≠ 'b' → c2 ≠ 'B' → c2 ≠ 'x' → c2 ≠ 'X' →
      createValue ('0' :: c2 :: rest) = parseIntegerValue 8 (c2 :: rest)) ∧
    (∀ (c1 c2 : Char) (rest : List Char), c1 ≠ '0' →
      createValue (c1 :: c2 :: rest) = parseIntegerValue 10 (c1 :: c2 :: rest)) ∧
    (∀ c : Char, createValue [c] = parseIntegerValue 10 [c]) := by
  refine ⟨fun rest => ?_, fun rest => ?_, fun rest => ?_, fun rest => ?_,
    fun c2 rest hb hB hx hX => ?_, fun c1 c2 rest h0 => ?_, fun c => ?_⟩
  · rw [createValue, if_pos (by simp)]; rfl
  · rw [createValue, if_pos (by simp)]; rfl
  · rw [createValue, if_pos (by simp)]; rfl
  · rw [createValue, if_pos (by simp)]; rfl
  · rw [createValue, if_pos (by simp)]; exact parseBaseUnknown_octal c2 rest hb hB hx hX
  · rw [createValue, if_pos (by simp)]; exact parseBaseUnknown_decimal c1 c2 rest h0
  · rw [createValue, if_neg (by simp)]

/-- Witness for C3 (amended) at the octal sequence `07` and the decimal
sequence `99`. -/
theorem c3_amended_base_detection_witness :
    createValue ['0', '7'] = parseIntegerValue 8 ['7'] ∧
      createValue ['9', '9'] = parseIntegerValue 10 ['9', '9'] :=
  ⟨c3_amended_base_detection.2.2.2.2.1 '7' [] (by decide) (by decide) (by decide) (by decide),
    c3_amended_base_detection.2.2.2.2.2.1 '9' '9' [] (by decide)⟩

/-- C4: for every radix and every non-empty digit sequence,
`ParseIntegerValue<r, d...>::parse()` equals the positional accumulation
`Sum over i of digitToValue(d_i) * r^(n-1-i)` carried out in 64-bit unsigned
arithmetic, i.e. reduced modulo 2^64. -/
theorem c4_parse_positional (r : Nat) (ds : List Char) (h : ds ≠ []) :
    parseIntegerValue r ds = some (positionalSum r ds % u64Mod) :=
  parse_eq_sum r ds h

/-- Witness for C4 at radix 10 and the digit sequence `42`. -/
theorem c4_parse_positional_witness :
    (['4', '2'] : List Char) ≠ [] ∧
      parseIntegerValue 10 ['4', '2'] = some (positionalSum 10 ['4', '2'] % u64Mod) :=
  ⟨by decide, c4_parse_positional 10 ['4', '2'] (by decide)⟩

/-- C5: the accumulation happens in a single unsigned 64-bit accumulator with
wraparound: a well-formed literal whose mathematical value is 2^64 or greater
is not rejected by the parser but yields the value reduced modulo 2^64, and
when that reduced value is within range of a target type the literal passes
that type's range check. -/
theorem c5_wraparound (s : Suffix) (ds : List Char) (v : Nat)
    (h : stdLitValue ds = some v) (hge : u64Mod ≤ v) (hpass : v % u64Mod ≤ maxOf s) :
    createValue ds = some (v % u64Mod) ∧ applyOp s ds = some (v % u64Mod) := by
  refine ⟨createValue_of_std ds v h, ?_⟩
  rw [applyOp_eq, createValue_of_std ds v h]
  simp only [Option.some_bind]
  rw [if_pos hpass]

/-- Witness for C5 at the hexadecimal literal `0x10000000000000000` (value
2^64) with suffix `_u8`. -/
theorem c5_wraparound_witness :
    stdLitValue ['0', 'x', '1', '0', '0', '0', '0', '0', '0', '0', '0', '0', '0', '0', '0',
        '0', '0', '0', '0'] = some (2 ^ 64) ∧
      u64Mod ≤ 2 ^ 64 ∧ 2 ^ 64 % u64Mod ≤ maxOf Suffix.u8 ∧
      (createValue ['0', 'x', '1', '0', '0', '0', '0', '0', '0', '0', '0', '0', '0', '0', '0',
          '0', '0', '0', '0'] = some (2 ^ 64 % u64Mod) ∧
        applyOp Suffix.u8 ['0', 'x', '1', '0', '0', '0', '0', '0', '0', '0', '0', '0', '0',
          '0', '0', '0', '0', '0', '0'] = some (2 ^ 64 % u64Mod)) :=
  ⟨by decide, by decide, by decide,
    c5_wraparound Suffix.u8 _ (2 ^ 64) (by decide) (by decide) (by decide)⟩

/-- C6: `powerOf` is total and agrees with the naive repeated-multiplication
power function reduced modulo 2^64; in particular `powerOf v 0 = 1`. -/
theorem c6_powerOf_correct (value n : Nat) :
    powerOf value n = naivePow value n % u64Mod ∧ powerOf value 0 = 1 := by
  constructor
  · rw [naivePow_eq_pow]
    exact powerOf_eq_pow value n
  · rw [powerOf_eq_pow, pow_zero, Nat.mod_eq_of_lt (by rw [u64Mod_val]; omega)]

/-- C7: `digitToValue` maps the characters `0`-`9` to the values 0-9 and the
characters `a`-`f` and `A`-`F` to the values 10-15. -/
theorem c7_digit_alphabet :
    digitToValue '0' = 0 ∧ digitToValue '1' = 1 ∧ digitToValue '2' = 2 ∧
    digitToValue '3' = 3 ∧ digitToValue '4' = 4 ∧ digitToValue '5' = 5 ∧
    digitToValue '6' = 6 ∧ digitToValue '7' = 7 ∧ digitToValue '8' = 8 ∧
    digitToValue '9' = 9 ∧ digitToValue 'a' = 10 ∧ digitToValue 'b' = 11 ∧
    digitToValue 'c' = 12 ∧ digitToValue 'd' = 13 ∧ digitToValue 'e' = 14 ∧
    digitToValue 'f' = 15 ∧ digitToValue 'A' = 10 ∧ digitToValue 'B' = 11 ∧
    digitToValue 'C' = 12 ∧ digitToValue 'D' = 13 ∧ digitToValue 'E' = 14 ∧
    digitToValue 'F' = 15 := by decide

/-- C8: the literal `256` with suffix `_u8` fails to compile, while `100` with
suffix `_u8` yields the value 100, which lies in the range of the 8-bit
unsigned type. -/
theorem c8_u8_boundary :
    op_u8 ['2', '5', '6'] = none ∧ op_u8 ['1', '0', '0'] = some 100 ∧
      (100 : Nat) ≤ uint8Max := by
  refine ⟨?_, ?_, by decide⟩
  · have h1 : createValue ['2', '5', '6'] = some 256 :=
      createValue_of_std_exact _ 256 (by decide) (by decide)
    unfold op_u8
    rw [h1]
    decide
  · have h2 : createValue ['1', '0', '0'] = some 100 :=
      createValue_of_std_exact _ 100 (by decide) (by decide)
    unfold op_u8
    rw [h2]
    decide

/-- C9: for each signed suffix over an N-bit type the accepted literal values
are exactly 0 through 2^(N-1)-1; the value 2^(N-1), which is the magnitude of
the type's minimum (`intNMinInt = -(intNMax + 1)`), is therefore rejected even
though its negation is representable. -/
theorem c9_signed_max_only (ds : List Char) (v : Nat) (h : stdLitValue ds = some v)
    (hM : v < u64Mod) :
    ((applyOp Suffix.i8 ds ≠ none ↔ v ≤ int8Max) ∧
      (applyOp Suffix.i16 ds ≠ none ↔ v ≤ int16Max) ∧
      (applyOp Suffix.i32 ds ≠ none ↔ v ≤ int32Max) ∧
      (applyOp Suffix.i64 ds ≠ none ↔ v ≤ int64Max)) ∧
    (int8MinInt = -((int8Max : Int) + 1) ∧ int16MinInt = -((int16Max : Int) + 1) ∧
      int32MinInt = -((int32Max : Int) + 1) ∧ int64MinInt = -((int64Max : Int) + 1)) := by
  refine ⟨⟨?_, ?_, ?_, ?_⟩, by decide, by decide, by decide, by decide⟩ <;>
    (rw [ne_eq, applyOp_none_iff _ ds v h hM, Nat.not_lt]; exact Iff.rfl)

/-- Witness for C9 at the decimal literal `128`, the magnitude of the minimum
of `int8_t`. -/
theorem c9_signed_max_only_witness :
    stdLitValue ['1', '2', '8'] = some 128 ∧ 128 < u64Mod ∧
      (((applyOp Suffix.i8 ['1', '2', '8'] ≠ none ↔ 128 ≤ int8Max) ∧
        (applyOp Suffix.i16 ['1', '2', '8'] ≠ none ↔ 128 ≤ int16Max) ∧
        (applyOp Suffix.i32 ['1', '2', '8'] ≠ none ↔ 128 ≤ int32Max) ∧
        (applyOp Suffix.i64 ['1', '2', '8'] ≠ none ↔ 128 ≤ int64Max)) ∧
      (int8MinInt = -((int8Max : Int) + 1) ∧ int16MinInt = -((int16Max : Int) + 1) ∧
        int32MinInt = -((int32Max : Int) + 1) ∧ int64MinInt = -((int64Max : Int) + 1))) :=
  ⟨by decide, by decide, c9_signed_max_only ['1', '2', '8'] 128 (by decide) (by decide)⟩

/-- C10: the `_u64` range check can never fail: its `static_assert` condition
holds for every possible 64-bit accumulator value, so every literal whose
parse succeeds is accepted by `checkValid_uint64_t`. -/
theorem c10_u64_check_total :
    (∀ v : Nat, v < u64Mod → checkValid_uint64_t v = some v) ∧
    (∀ (ds : List Char) (v : Nat), createValue ds = some v → op_u64 ds = some v) := by
  have h1 : ∀ v : Nat, v < u64Mod → checkValid_uint64_t v = some v := by
    intro v hv
    unfold checkValid_uint64_t
    rw [if_pos (by simp only [uint64Max]; rw [u64Mod_val] at hv; omega)]
  refine ⟨h1, fun ds v h => ?_⟩
  unfold op_u64
  rw [h]
  simp only [Option.some_bind]
  exact h1 v (createValue_lt ds v h)

/-- Witness for C10 at the accumulator value 5 and the decimal literal `7`. -/
theorem c10_u64_check_total_witness :
    (5 : Nat) < u64Mod ∧ checkValid_uint64_t 5 = some 5 ∧
      createValue ['7'] = some 7 ∧ op_u64 ['7'] = some 7 :=
  ⟨by decide, c10_u64_check_total.1 5 (by decide), by decide,
    c10_u64_check_total.2 ['7'] 7 (by decide)⟩

end SizedIntLiterals
